import Mathlib

/-
Verification of the article-catalog core of the blog MCP server
(`server.py` on top of the `GitRepository` adapter in `git.py`).

The remote content store is modelled as an explicit state (an association
list from path to file content) together with a fault environment deciding
which remote writes and deletes succeed.  Each catalog operation is a pure
Lean function from the fault environment and the store state to the
returned message, the new store state, and the trace of store operations
it issued, translated line by line from `server.py`.

Modelling notes on the third-party library calls made by the source:
* `pypinyin.lazy_pinyin` + join is modelled on the fragment of titles with
  no Chinese characters, where it is the identity.
* The Python regex class `\w` and `str.lower` are modelled on their
  ASCII fragments; `str.strip` and `str.isspace` are modelled with the
  full Python whitespace character set.
* `json.loads` / `json.dumps` are modelled on the fragment the catalog
  itself reads and writes: JSON objects whose keys and values are strings
  (with the basic escape sequences); other JSON shapes are outside the
  model and parse as failure.  Where a theorem needs a real Python
  `JSONDecodeError`, it uses `pyJsonSurelyMalformed`, a sound
  under-approximation of that failure.
-/

set_option autoImplicit false
set_option maxRecDepth 8192

namespace BlogMcp

/-! ### ASCII character classes -/

/-- The 26 lowercase ASCII letters. -/
def asciiLowerChars : List Char :=
  ['a', 'b', 'c', 'd', 'e', 'f', 'g', 'h', 'i', 'j', 'k', 'l', 'm',
   'n', 'o', 'p', 'q', 'r', 's', 't', 'u', 'v', 'w', 'x', 'y', 'z']

/-- The 26 uppercase ASCII letters. -/
def asciiUpperChars : List Char :=
  ['A', 'B', 'C', 'D', 'E', 'F', 'G', 'H', 'I', 'J', 'K', 'L', 'M',
   'N', 'O', 'P', 'Q', 'R', 'S', 'T', 'U', 'V', 'W', 'X', 'Y', 'Z']

/-- The 10 ASCII digits. -/
def digitChars : List Char :=
  ['0', '1', '2', '3', '4', '5', '6', '7', '8', '9']

/-- The characters matched by the regex class backslash-w on ASCII input:
letters, digits and the underscore. -/
def wordChars : List Char :=
  asciiUpperChars ++ asciiLowerChars ++ digitChars ++ ['_']

/-- Model of the regex class backslash-w used in `title_to_filename`,
restricted to its ASCII fragment. -/
def isWordChar (c : Char) : Bool := decide (c ∈ wordChars)

/-- The uppercase-to-lowercase pairs of ASCII letters. -/
def upperLowerPairs : List (Char × Char) := asciiUpperChars.zip asciiLowerChars

/-- Look a character up in a pairing list. -/
def lookupPair : List (Char × Char) → Char → Option Char
  | [], _ => none
  | (a, b) :: rest, c => if c = a then some b else lookupPair rest c

/-- Model of Python `str.lower` on a single character, restricted to its
ASCII fragment: uppercase ASCII letters are mapped to their lowercase
counterparts, everything else is unchanged. -/
def pyLowerChar (c : Char) : Char :=
  match lookupPair upperLowerPairs c with
  | some l => l
  | none => c

/-- The characters for which Python `str.isspace()` holds — exactly the
set stripped by `str.strip()`: the ASCII whitespace and separator
controls, next line, no-break space, and the Unicode space and line and
paragraph separators. -/
def pyWhitespaceChars : List Char :=
  ['\t', '\n', '\x0b', '\x0c', '\r', '\x1c', '\x1d', '\x1e', '\x1f', ' ',
   '\x85', '\xa0', '\u1680', '\u2000', '\u2001', '\u2002', '\u2003',
   '\u2004', '\u2005', '\u2006', '\u2007', '\u2008', '\u2009', '\u200a',
   '\u2028', '\u2029', '\u202f', '\u205f', '\u3000']

/-- Model of Python `str.isspace` on a single character. -/
def pyIsSpace (c : Char) : Bool := decide (c ∈ pyWhitespaceChars)

/-! ### Generic list helpers used by the string models -/

/-- Model of Python `str.startswith`: `listStartsWith p l` holds when
`p` is an initial segment of `l`. -/
def listStartsWith : List Char → List Char → Bool
  | [], _ => true
  | _ :: _, [] => false
  | p :: ps, c :: cs => p = c && listStartsWith ps cs

/-- Drop the longest suffix of characters satisfying `p`
(the tail half of Python `str.strip`). -/
def dropTrailingWhile (p : Char → Bool) : List Char → List Char
  | [] => []
  | c :: rest =>
    match dropTrailingWhile p rest with
    | [] => if p c then [] else [c]
    | r => c :: r

/-- Model of Python `str.strip()`. -/
def pyStrip (l : List Char) : List Char :=
  dropTrailingWhile pyIsSpace (l.dropWhile pyIsSpace)

/-- Split a character list at every occurrence of `sep`
(model of Python `str.split` with a one-character separator). -/
def splitChar (sep : Char) : List Char → List (List Char)
  | [] => [[]]
  | c :: rest =>
    match splitChar sep rest with
    | [] => if c = sep then [[], []] else [[c]]
    | h :: t => if c = sep then [] :: h :: t else (c :: h) :: t

/-- Remove every occurrence of the substring `.md`, scanning left to right
(model of the Python call `s.replace(".md", "")`). -/
def removeMd : List Char → List Char
  | '.' :: 'm' :: 'd' :: rest => removeMd rest
  | c :: rest => c :: removeMd rest
  | [] => []

/-! ### Filename derivation (`title_to_filename`) -/

/-- Model of `pypinyin.lazy_pinyin` composed with string join, on the
fragment of titles containing no Chinese characters: such input passes
through unchanged.  Chinese transliteration is outside this model. -/
def lazyPinyinJoin (l : List Char) : List Char := l

/-- One step of the regex substitution replacing every character outside
word characters and hyphens by a hyphen. -/
def replaceNonWordChar (c : Char) : Char :=
  if isWordChar c || c = '-' then c else '-'

/-- Collapse every run of hyphens to a single hyphen
(model of the regex substitution of one-or-more hyphens by one). -/
def collapseHyphens : List Char → List Char
  | [] => []
  | [c] => [c]
  | a :: b :: rest =>
    if a = '-' ∧ b = '-' then collapseHyphens (b :: rest)
    else a :: collapseHyphens (b :: rest)

/-- Model of Python `str.strip("-")`. -/
def stripHyphens (l : List Char) : List Char :=
  dropTrailingWhile (fun c => c = '-') (l.dropWhile (fun c => c = '-'))

/-- Embedding of `title_to_filename` from `server.py`: transliterate
(identity on the modelled non-Chinese fragment), replace characters
outside word characters and hyphens by hyphens, collapse repeated hyphens,
strip leading and trailing hyphens, and lowercase. -/
def title_to_filename (title : String) : String :=
  ⟨(stripHyphens (collapseHyphens
      ((lazyPinyinJoin title.data).map replaceNonWordChar))).map pyLowerChar⟩

/-- Acceptance automaton for the pattern of one-or-more good characters,
then any number of groups of a single hyphen followed by one-or-more good
characters.  The Boolean state records whether the scanner is inside a
group (so a hyphen or the end of input is currently legal). -/
def slugMatchAux (good : Char → Bool) : Bool → List Char → Bool
  | inGroup, [] => inGroup
  | inGroup, c :: rest =>
    if good c then slugMatchAux good true rest
    else if c = '-' then inGroup && slugMatchAux good false rest
    else false

/-- Characters admitted by the spec pattern `[a-z0-9]`. -/
def isStrictSlugChar (c : Char) : Bool :=
  decide (c ∈ asciiLowerChars) || decide (c ∈ digitChars)

/-- Characters admitted by the lowercase word-character class
`[a-z0-9_]`. -/
def isWordSlugChar (c : Char) : Bool := isStrictSlugChar c || c = '_'

/-- Whether a string matches the anchored pattern of nonempty
`good`-character groups separated by single hyphens. -/
def slugMatches (good : Char → Bool) (s : String) : Bool :=
  slugMatchAux good false s.data

/-! ### Title normalization (`has_markdown_title`, `add_title_to_content`) -/

/-- The first line of a character list (everything before the first
newline; model of `content.split("\n")[0]`). -/
def firstLine (l : List Char) : List Char :=
  l.takeWhile (fun c => ¬ (c = '\n'))

/-- Embedding of `has_markdown_title` from `server.py`: strip the content,
then test whether the first line starts with a level-1 heading marker.
An all-whitespace content strips to the empty list, whose first line does
not start with the marker, matching the early return in the source. -/
def has_markdown_title (content : String) : Bool :=
  listStartsWith ['#', ' '] (firstLine (pyStrip content.data))

/-- Embedding of `add_title_to_content` from `server.py`. -/
def add_title_to_content (title content : String) : String :=
  if has_markdown_title content then content
  else "# " ++ title ++ "\n\n" ++ content

/-! ### Python string-keyed dictionaries

The `_meta.json` mapping is manipulated in the source as a Python `dict`
with string keys and string values; it is modelled as an association list
with the insertion-order semantics of Python dictionaries. -/

/-- Python dict item assignment `m[k] = v`: replace the value at the first
occurrence of `k`, or append a new entry at the end. -/
def dictInsert (m : List (String × String)) (k v : String) : List (String × String) :=
  match m with
  | [] => [(k, v)]
  | (k', v') :: rest => if k' = k then (k, v) :: rest else (k', v') :: dictInsert rest k v

/-- Python `del m[k]`: remove the entry with key `k`. -/
def dictRemove (m : List (String × String)) (k : String) : List (String × String) :=
  match m with
  | [] => []
  | (k', v') :: rest => if k' = k then rest else (k', v') :: dictRemove rest k

/-- Python `k in m` on a dict. -/
def dictMem (m : List (String × String)) (k : String) : Bool :=
  match m with
  | [] => false
  | (k', _) :: rest => k' = k || dictMem rest k

/-- Python `m.get`-style lookup on an association list. -/
def assocGet (m : List (String × String)) (k : String) : Option String :=
  match m with
  | [] => none
  | (k', v) :: rest => if k' = k then some v else assocGet rest k

/-! ### JSON codec for the category index

Model of `json.dumps(meta, ensure_ascii=False, indent=4)` and
`json.loads` on the object-of-strings fragment that the catalog reads and
writes.  `metaLoads` accepts exactly the valid JSON texts of that
fragment (with the basic escape sequences); other JSON shapes are outside
the model and are mapped to parse failure. -/

/-- One hexadecimal digit. -/
def hexDigitChar (n : Nat) : Char :=
  (digitChars ++ ['a', 'b', 'c', 'd', 'e', 'f']).getD n '0'

/-- JSON escaping of a single character, as performed by `json.dumps`
with `ensure_ascii=False`. -/
def jsonEscapeChar (c : Char) : List Char :=
  if c = '\x22' then ['\\', '\x22']
  else if c = '\\' then ['\\', '\\']
  else if c = '\n' then ['\\', 'n']
  else if c = '\t' then ['\\', 't']
  else if c = '\r' then ['\\', 'r']
  else if c = '\x08' then ['\\', 'b']
  else if c = '\x0c' then ['\\', 'f']
  else if c.toNat < 32 then
    ['\\', 'u', '0', '0', hexDigitChar (c.toNat / 16), hexDigitChar (c.toNat % 16)]
  else [c]

/-- A JSON string literal for `s`, including the surrounding quotes. -/
def jsonQuote (s : String) : List Char :=
  '\x22' :: (s.data.foldr (fun c acc => jsonEscapeChar c ++ acc) ['\x22'])

/-- The item lines of the 4-space-indented object serialization. -/
def metaDumpsItems : List (String × String) → List Char
  | [] => []
  | [(k, v)] => [' ', ' ', ' ', ' '] ++ jsonQuote k ++ [':', ' '] ++ jsonQuote v
  | (k, v) :: rest =>
    [' ', ' ', ' ', ' '] ++ jsonQuote k ++ [':', ' '] ++ jsonQuote v ++ [',', '\n']
      ++ metaDumpsItems rest

/-- Model of `json.dumps(meta, ensure_ascii=False, indent=4)`. -/
def metaDumps (m : List (String × String)) : String :=
  match m with
  | [] => "\x7b\x7d"
  | _ => ⟨'\x7b' :: '\n' :: (metaDumpsItems m ++ ['\n', '\x7d'])⟩

/-- Skip JSON whitespace. -/
def skipWs : List Char → List Char
  | [] => []
  | c :: rest =>
    if c = ' ' || c = '\t' || c = '\n' || c = '\r' then skipWs rest else c :: rest

/-- Parse the remainder of a JSON string literal (the opening quote has
been consumed), returning its characters and the rest of the input. -/
def parseJStringAux : List Char → Option (List Char × List Char)
  | [] => none
  | '\x22' :: rest => some ([], rest)
  | '\\' :: e :: rest =>
    match
      (if e = '\x22' then some '\x22'
       else if e = '\\' then some '\\'
       else if e = '/' then some '/'
       else if e = 'n' then some '\n'
       else if e = 't' then some '\t'
       else if e = 'r' then some '\r'
       else if e = 'b' then some '\x08'
       else if e = 'f' then some '\x0c'
       else none) with
    | none => none
    | some c =>
      match parseJStringAux rest with
      | none => none
      | some (s, rem) => some (c :: s, rem)
  | c :: rest =>
    if c.toNat < 32 then none
    else
      match parseJStringAux rest with
      | none => none
      | some (s, rem) => some (c :: s, rem)

/-- Parse a comma-separated sequence of `"key": "value"` entries followed
by a closing brace, accumulating with Python dict assignment semantics.
The fuel argument bounds the recursion. -/
def parseEntriesAux : Nat → List (String × String) → List Char →
    Option (List (String × String) × List Char)
  | 0, _, _ => none
  | fuel + 1, acc, l =>
    match skipWs l with
    | '\x22' :: rest =>
      match parseJStringAux rest with
      | none => none
      | some (k, rem) =>
        match skipWs rem with
        | ':' :: rem2 =>
          match skipWs rem2 with
          | '\x22' :: rem3 =>
            match parseJStringAux rem3 with
            | none => none
            | some (v, rem4) =>
              match skipWs rem4 with
              | ',' :: rem5 => parseEntriesAux fuel (dictInsert acc ⟨k⟩ ⟨v⟩) rem5
              | '\x7d' :: rem5 => some (dictInsert acc ⟨k⟩ ⟨v⟩, rem5)
              | _ => none
          | _ => none
        | _ => none
    | _ => none

/-- Model of `json.loads` on the object-of-strings fragment. -/
def metaLoads (s : String) : Option (List (String × String)) :=
  match skipWs s.data with
  | '\x7b' :: rest =>
    match skipWs rest with
    | '\x7d' :: rem => if skipWs rem = [] then some [] else none
    | _ =>
      match parseEntriesAux (s.length + 1) [] rest with
      | none => none
      | some (m, rem) => if skipWs rem = [] then some m else none
  | _ => none

/-! ### The remote content store

State-and-fault model of the `GitRepository` adapter in `git.py`: the
repository content on the working branch is an association list from path
to file content; the fault environment decides which remote writes and
deletes succeed (a failed call leaves the state unchanged, matching the
`False` returns of `write_file` and `delete_file`).  `read_file` reports
a missing path as `none`.  Every operation issued against the store is
recorded in a trace. -/

/-- The repository state: path-to-content association list. -/
structure GitState where
  files : List (String × String)
  deriving DecidableEq

/-- Fault environment: which remote writes and deletes succeed. -/
structure Faults where
  writeOk : String → Bool
  deleteOk : String → Bool

/-- A store operation issued by a catalog operation, with its result. -/
inductive GitOp where
  | readOp (path : String) (result : Option String)
  | writeOp (path : String) (content : String) (ok : Bool)
  | deleteOp (path : String) (ok : Bool)
  deriving DecidableEq

/-- Embedding of `read_file`: content at a path, `none` when missing. -/
def storeRead (st : GitState) (path : String) : Option String :=
  assocGet st.files path

/-- Embedding of `write_file`: create-or-update on success, no change on failure. -/
def storeWrite (f : Faults) (st : GitState) (path content : String) :
    Bool × GitState :=
  if f.writeOk path then (true, ⟨dictInsert st.files path content⟩)
  else (false, st)

/-- Embedding of `delete_file`: fails when the path is missing (the
content lookup in the adapter raises) or when the fault environment makes
the remote call fail. -/
def storeDelete (f : Faults) (st : GitState) (path : String) :
    Bool × GitState :=
  if (storeRead st path).isSome && f.deleteOk path then
    (true, ⟨dictRemove st.files path⟩)
  else (false, st)

/-! ### The catalog operations

Each tool of `server.py` is translated into a pure function returning the
message handed back to the caller, the new store state, and the trace of
store operations issued.  `datetime.now()` in `create_new_article` is
modelled as an explicit `now` input. -/

/-- The path of a category index file. -/
def metaPath (category : String) : String :=
  "pages/" ++ category ++ "/_meta.json"

/-- The path of an article file. -/
def articlePath (category filename : String) : String :=
  "pages/" ++ category ++ "/" ++ filename ++ ".md"

/-- Embedding of the path parsing shared verbatim by `update_article`
and `delete_article` (`server.py` lines 149-155 and 220-226): split on
slashes, require at least three segments with first segment `pages`, take
the category from the second segment, and take the index key from the
third segment with every occurrence of `.md` removed. -/
def parseArticlePath (path : String) : Option (String × String) :=
  let parts := splitChar '/' path.data
  if parts.length < 3 ∨ parts.head? ≠ some ("pages".data) then none
  else some (⟨parts.getD 1 []⟩, ⟨removeMd (parts.getD 2 [])⟩)

/-- The provenance footer appended by `create_new_article`. -/
def aiFooter (now : String) : String :=
  "\n\n---\n> This article was created by AI at " ++ now ++
    " and is for reference only."

/-- Embedding of `create_new_article` from `server.py`. -/
def create_new_article (f : Faults) (st : GitState)
    (now title content category : String) : String × GitState × List GitOp :=
  if ¬ (category = "web3" ∨ category = "note") then
    ("Error: Category should be one of the following: web3, note", st, [])
  else
    let filename := title_to_filename title
    let filepath := articlePath category filename
    let final_content := add_title_to_content title content ++ aiFooter now
    let meta_filepath := metaPath category
    let meta_content := storeRead st meta_filepath
    let meta_data : List (String × String) :=
      match meta_content with
      | none => [(filename, title)]
      | some mc =>
        match metaLoads mc with
        | none => dictInsert [] filename title
        | some m => dictInsert m filename title
    let updated_meta_content := metaDumps meta_data
    let w1 := storeWrite f st meta_filepath updated_meta_content
    let tr1 := [GitOp.readOp meta_filepath meta_content,
                GitOp.writeOp meta_filepath updated_meta_content w1.1]
    if ¬ w1.1 then ("Error: Failed to update _meta.json", w1.2, tr1)
    else
      let w2 := storeWrite f w1.2 filepath final_content
      let tr2 := tr1 ++ [GitOp.writeOp filepath final_content w2.1]
      if ¬ w2.1 then
        ("Error: Failed to create article file " ++ filepath, w2.2, tr2)
      else
        ("Successfully created article \x27" ++ title ++ "\x27 at " ++ filepath,
         w2.2, tr2)

/-- The final content write of `update_article`, shared by every branch
of the title handling, together with the success-message construction. -/
def finishContentWrite (f : Faults) (st : GitState)
    (path new_content : String) (title : Option String) (tr : List GitOp) :
    String × GitState × List GitOp :=
  let w := storeWrite f st path new_content
  let tr' := tr ++ [GitOp.writeOp path new_content w.1]
  if w.1 then
    (match title with
     | none => "Successfully updated article at " ++ path
     | some t =>
       "Successfully updated article at " ++ path ++
         " with new title \x27" ++ t ++ "\x27", w.2, tr')
  else ("Error: Failed to update article at " ++ path, w.2, tr')

/-- Embedding of `update_article` from `server.py`. -/
def update_article (f : Faults) (st : GitState)
    (path new_content : String) (title : Option String) :
    String × GitState × List GitOp :=
  let existing := storeRead st path
  let tr0 := [GitOp.readOp path existing]
  match existing with
  | none => ("Error: Article not found at path \x27" ++ path ++ "\x27", st, tr0)
  | some _ =>
    match parseArticlePath path with
    | none =>
      ("Error: Invalid article path format. Expected \x27pages/category/filename.md\x27",
       st, tr0)
    | some (category, filename) =>
      match title with
      | none => finishContentWrite f st path new_content none tr0
      | some t =>
        let meta_filepath := metaPath category
        let meta_content := storeRead st meta_filepath
        let tr1 := tr0 ++ [GitOp.readOp meta_filepath meta_content]
        match meta_content with
        | none =>
          ("Error: _meta.json not found for category \x27" ++ category ++ "\x27",
           st, tr1)
        | some mc =>
          match metaLoads mc with
          | none => ("Error: Invalid _meta.json format", st, tr1)
          | some meta_data =>
            if dictMem meta_data filename then
              let updated := metaDumps (dictInsert meta_data filename t)
              let w := storeWrite f st meta_filepath updated
              let tr2 := tr1 ++ [GitOp.writeOp meta_filepath updated w.1]
              if w.1 then finishContentWrite f w.2 path new_content (some t) tr2
              else ("Error: Failed to update _meta.json", w.2, tr2)
            else finishContentWrite f st path new_content (some t) tr1

/-- Embedding of `get_article` from `server.py`. -/
def get_article (st : GitState) (path : String) : String :=
  match storeRead st path with
  | none => "Error: Article not found at path \x27" ++ path ++ "\x27"
  | some content => content

/-- The final file deletion of `delete_article`, shared by every branch
of the index handling. -/
def deleteFinish (f : Faults) (st : GitState) (path : String)
    (tr : List GitOp) : String × GitState × List GitOp :=
  let d := storeDelete f st path
  let tr' := tr ++ [GitOp.deleteOp path d.1]
  if d.1 then ("Successfully deleted article at " ++ path, d.2, tr')
  else ("Error: Failed to delete article at " ++ path, d.2, tr')

/-- Embedding of `delete_article` from `server.py`. -/
def delete_article (f : Faults) (st : GitState) (path : String) :
    String × GitState × List GitOp :=
  let existing := storeRead st path
  let tr0 := [GitOp.readOp path existing]
  match existing with
  | none => ("Error: Article not found at path \x27" ++ path ++ "\x27", st, tr0)
  | some _ =>
    match parseArticlePath path with
    | none =>
      ("Error: Invalid article path format. Expected \x27pages/category/filename.md\x27",
       st, tr0)
    | some (category, filename) =>
      let meta_filepath := metaPath category
      let meta_content := storeRead st meta_filepath
      let tr1 := tr0 ++ [GitOp.readOp meta_filepath meta_content]
      match meta_content with
      | none => deleteFinish f st path tr1
      | some mc =>
        match metaLoads mc with
        | none => deleteFinish f st path tr1
        | some meta_data =>
          if dictMem meta_data filename then
            let updated := metaDumps (dictRemove meta_data filename)
            let w := storeWrite f st meta_filepath updated
            let tr2 := tr1 ++ [GitOp.writeOp meta_filepath updated w.1]
            if w.1 then deleteFinish f w.2 path tr2
            else ("Error: Failed to update _meta.json", w.2, tr2)
          else deleteFinish f st path tr1

/-! ### Concrete fixtures for the closed theorems -/

/-- Fault environment in which every remote call succeeds. -/
def allOkFaults : Faults := ⟨fun _ => true, fun _ => true⟩

/-- Fault environment in which every write to the `note` category index
fails and every other remote call succeeds. -/
def noteMetaFailFaults : Faults :=
  ⟨fun p => decide (p ≠ "pages/note/_meta.json"), fun _ => true⟩

/-- An empty repository. -/
def emptyState : GitState := ⟨[]⟩

/-- A fixed timestamp standing for `datetime.now()`. -/
def sampleNow : String := "2025-01-01 00:00:00"

/-- The end-to-end create run of the specification example. -/
def helloRun : String × GitState × List GitOp :=
  create_new_article allOkFaults emptyState sampleNow "Hello World" "Some body" "note"

/-- A create run whose title derives to the empty filename. -/
def degenerateRun : String × GitState × List GitOp :=
  create_new_article allOkFaults emptyState sampleNow "!!!" "x" "note"

/-- A repository whose index parses but does not contain the key of the
article being updated. -/
def keyAbsentState : GitState :=
  ⟨[("pages/note/a.md", "old"), ("pages/note/_meta.json", metaDumps [("b", "B")])]⟩

/-- A repository holding an article path with a non-`.md` extension. -/
def wrongExtState : GitState := ⟨[("pages/note/a.txt", "old")]⟩

/-- A repository holding an article path with a fourth path segment. -/
def extraSegState : GitState := ⟨[("pages/note/a.md/extra", "old")]⟩

/-! ### Closed theorems on concrete runs -/

/-- Claim C9: creating an article with title `Hello World`, body
`Some body`, and category `note` reports the path
`pages/note/hello-world.md`, leaves the category index containing exactly
the entry mapping `hello-world` to `Hello World`, and a subsequent read
of that path returns the body prefixed with the heading `# Hello World`. -/
theorem claim_C9_end_to_end :
    helloRun.1 =
      "Successfully created article \x27Hello World\x27 at pages/note/hello-world.md" ∧
    storeRead helloRun.2.1 "pages/note/_meta.json" =
      some (metaDumps [("hello-world", "Hello World")]) ∧
    metaLoads (metaDumps [("hello-world", "Hello World")]) =
      some [("hello-world", "Hello World")] ∧
    listStartsWith "# Hello World\n\nSome body".data
      (get_article helloRun.2.1 "pages/note/hello-world.md").data = true := by
  decide

/-- Claim C7 (failing input): a create invocation whose title derives to
the empty filename is not rejected: the category index is read and
written with an empty-string key, and an article file is written at
`pages/note/.md`, contradicting the claim that no store call occurs. -/
theorem claim_C7_store_calls_on_empty_filename :
    title_to_filename "!!!" = "" ∧
    degenerateRun.2.2 =
      [GitOp.readOp "pages/note/_meta.json" none,
       GitOp.writeOp "pages/note/_meta.json" (metaDumps [("", "!!!")]) true,
       GitOp.writeOp "pages/note/.md" ("# !!!\n\nx" ++ aiFooter sampleNow) true] ∧
    degenerateRun.1 = "Successfully created article \x27!!!\x27 at pages/note/.md" ∧
    storeRead degenerateRun.2.1 "pages/note/.md" =
      some ("# !!!\n\nx" ++ aiFooter sampleNow) := by
  decide

/-- Claim C4 is false as stated: when the filename key is absent from the
parseable index, the update still proceeds and reports a successful title
update, while the index is left unchanged and never written. -/
theorem claim_C4_counterexample :
    (update_article allOkFaults keyAbsentState "pages/note/a.md" "new" (some "T")).1 =
      "Successfully updated article at pages/note/a.md with new title \x27T\x27" ∧
    storeRead (update_article allOkFaults keyAbsentState "pages/note/a.md" "new"
        (some "T")).2.1 "pages/note/_meta.json" = some (metaDumps [("b", "B")]) ∧
    (update_article allOkFaults keyAbsentState "pages/note/a.md" "new" (some "T")).2.2 =
      [GitOp.readOp "pages/note/a.md" (some "old"),
       GitOp.readOp "pages/note/_meta.json" (some (metaDumps [("b", "B")])),
       GitOp.writeOp "pages/note/a.md" "new" true] := by
  decide

/-- Claim C5 is false as stated: the title `a_b` derives to the nonempty
filename `a_b`, which does not match the pattern of lowercase letters and
digits separated by single hyphens, because of the underscore. -/
theorem claim_C5_counterexample :
    title_to_filename "a_b" = "a_b" ∧
    slugMatches isStrictSlugChar (title_to_filename "a_b") = false ∧
    title_to_filename "a_b" ≠ "" := by
  decide

/-- Claim C6 is false as stated: with the empty title and empty content,
one application of the normalization yields a text whose stripped first
line is a bare hash mark, so a second application prepends another
heading and the results differ. -/
theorem claim_C6_counterexample :
    add_title_to_content "" (add_title_to_content "" "") ≠
      add_title_to_content "" "" := by
  decide

/-- Claim C8 is false as stated: a path with a wrong extension and a path
with a fourth segment are both accepted by the update operation rather
than rejected as validation errors. -/
theorem claim_C8_counterexample :
    (update_article allOkFaults wrongExtState "pages/note/a.txt" "new" none).1 =
      "Successfully updated article at pages/note/a.txt" ∧
    (update_article allOkFaults extraSegState "pages/note/a.md/extra" "new" none).1 =
      "Successfully updated article at pages/note/a.md/extra" := by
  decide

/-! ### Path disequality: an article path is never the index path -/

/-- Whether a string ends in `.md`, tested on the reversed character
list. -/
def endsInMd (s : String) : Bool :=
  listStartsWith ['d', 'm', '.'] s.data.reverse

theorem listStartsWith_append_self (p t : List Char) :
    listStartsWith p (p ++ t) = true := by
  induction p with
  | nil => rfl
  | cons c cs ih => simpa [listStartsWith] using ih

theorem endsInMd_append_md (s : String) : endsInMd (s ++ ".md") = true := by
  show listStartsWith ['d', 'm', '.'] (s ++ ".md").data.reverse = true
  rw [String.data_append, List.reverse_append,
    show (".md".data.reverse) = ['d', 'm', '.'] from by decide]
  exact listStartsWith_append_self _ _

theorem endsInMd_meta (cat : String) :
    endsInMd ("pages/" ++ cat ++ "/_meta.json") = false := by
  show listStartsWith ['d', 'm', '.'] (("pages/" ++ cat) ++ "/_meta.json").data.reverse = false
  rw [String.data_append, List.reverse_append,
    show ("/_meta.json".data.reverse) =
      ['n', 'o', 's', 'j', '.', 'a', 't', 'e', 'm', '_', '/'] from by decide]
  rfl

theorem articlePath_ne_metaPath (cat fn : String) :
    articlePath cat fn ≠ metaPath cat := by
  intro h
  have h2 := congrArg endsInMd h
  rw [show articlePath cat fn = ("pages/" ++ cat ++ "/" ++ fn) ++ ".md" from rfl,
    endsInMd_append_md, show metaPath cat = "pages/" ++ cat ++ "/_meta.json" from rfl,
    endsInMd_meta] at h2
  exact absurd h2 (by decide)

/-! ### Claim C1: the index is written before the article file -/

/-- Claim C1: in the create operation on a valid category, if the index
write fails the operation aborts with the index error, leaves the store
unchanged, and never writes the article file; and whenever the trace
contains the article-file write, it is the literal three-step trace in
which a successful index write precedes it. -/
theorem claim_C1_index_before_article (f : Faults) (st : GitState)
    (now title content category : String)
    (hcat : category = "web3" ∨ category = "note") :
    (f.writeOk (metaPath category) = false →
      (create_new_article f st now title content category).1 =
          "Error: Failed to update _meta.json" ∧
        (create_new_article f st now title content category).2.1 = st ∧
        ∀ b ok, GitOp.writeOp (articlePath category (title_to_filename title)) b ok ∉
          (create_new_article f st now title content category).2.2) ∧
    (f.writeOk (metaPath category) = true →
      ∃ mc, (create_new_article f st now title content category).2.2 =
        [GitOp.readOp (metaPath category) (storeRead st (metaPath category)),
         GitOp.writeOp (metaPath category) mc true,
         GitOp.writeOp (articlePath category (title_to_filename title))
           (add_title_to_content title content ++ aiFooter now)
           (f.writeOk (articlePath category (title_to_filename title)))]) := by
  unfold create_new_article
  rw [if_neg (not_not_intro hcat)]
  constructor
  · intro hw
    simp [storeWrite, hw]
    exact articlePath_ne_metaPath category (title_to_filename title)
  · intro hw
    cases hfa : f.writeOk (articlePath category (title_to_filename title)) <;>
      simp [storeWrite, hw, hfa]

/-- Witness for claim C1 at a concrete input: with the `note` index write
failing, create aborts with the index error and no write of the article
file appears in the trace. -/
theorem claim_C1_witness :
    (create_new_article noteMetaFailFaults emptyState sampleNow "T" "body" "note").1 =
      "Error: Failed to update _meta.json" ∧
    GitOp.writeOp (articlePath "note" (title_to_filename "T")) "x" true ∉
      (create_new_article noteMetaFailFaults emptyState sampleNow "T" "body" "note").2.2 := by
  have h := (claim_C1_index_before_article noteMetaFailFaults emptyState sampleNow
    "T" "body" "note" (Or.inr rfl)).1 (by decide)
  exact ⟨h.1, h.2.2 "x" true⟩

/-! ### Claim C3: update with a new title aborts when the index is missing -/

/-- Claim C3: an update that supplies a new title, on an existing article
with a well-shaped path whose category index is missing, returns the
distinct no-index error, leaves the store untouched, and issues no write:
its trace is exactly the two reads. -/
theorem claim_C3_missing_index_aborts (f : Faults) (st : GitState)
    (path new_content t old cat fn : String)
    (hread : storeRead st path = some old)
    (hparse : parseArticlePath path = some (cat, fn))
    (hmeta : storeRead st (metaPath cat) = none) :
    update_article f st path new_content (some t) =
      ("Error: _meta.json not found for category \x27" ++ cat ++ "\x27", st,
       [GitOp.readOp path (some old), GitOp.readOp (metaPath cat) none]) := by
  simp [update_article, hread, hparse, hmeta]

/-- A repository with one article and no index file. -/
def missingIndexState : GitState := ⟨[("pages/note/a.md", "old")]⟩

/-- Witness for claim C3 at a concrete input. -/
theorem claim_C3_witness :
    update_article allOkFaults missingIndexState "pages/note/a.md" "new" (some "T") =
      ("Error: _meta.json not found for category \x27note\x27", missingIndexState,
       [GitOp.readOp "pages/note/a.md" (some "old"),
        GitOp.readOp "pages/note/_meta.json" none]) :=
  claim_C3_missing_index_aborts allOkFaults missingIndexState "pages/note/a.md"
    "new" "T" "old" "note" "a" (by decide) (by decide) (by decide)

/-! ### Claim C10: what the shared path parsing actually accepts -/

/-- A repository whose only article sits in a category outside the
`web3`/`note` enumeration. -/
def unknownCatState : GitState := ⟨[("pages/xyz/a.md", "zz")]⟩

/-- A repository whose article path carries a fourth segment, plus a
valid index for the `note` category. -/
def fourthSegState : GitState :=
  ⟨[("pages/note/a.md/zzz", "old"), ("pages/note/_meta.json", metaDumps [("a", "A")])]⟩

/-- Claim C10: the path parsing shared by update and delete accepts
exactly the paths whose slash-split has at least three segments with
first segment `pages`; the category is the second segment, unchecked
against the category enumeration (a delete in category `xyz` succeeds);
the index key is the third segment with every occurrence of `.md`
removed, so `pages/note/a.md.backup.md` yields key `a.backup`; and
segments after the third are ignored for index purposes (an update of
`pages/note/a.md/zzz` edits key `a` of the `note` index). -/
theorem claim_C10_path_parsing :
    (∀ path : String, parseArticlePath path = none ↔
      ((splitChar '/' path.data).length < 3 ∨
        (splitChar '/' path.data).head? ≠ some ("pages".data))) ∧
    (∀ path cat fn, parseArticlePath path = some (cat, fn) →
      cat.data = (splitChar '/' path.data).getD 1 [] ∧
      fn.data = removeMd ((splitChar '/' path.data).getD 2 [])) ∧
    parseArticlePath "pages/note/a.md.backup.md" = some ("note", "a.backup") ∧
    parseArticlePath "pages/xyz/a.md" = some ("xyz", "a") ∧
    (delete_article allOkFaults unknownCatState "pages/xyz/a.md").1 =
      "Successfully deleted article at pages/xyz/a.md" ∧
    storeRead (update_article allOkFaults fourthSegState "pages/note/a.md/zzz" "new"
        (some "T2")).2.1 "pages/note/_meta.json" = some (metaDumps [("a", "T2")]) := by
  refine ⟨?_, ?_, by decide, by decide, by decide, by decide⟩
  · intro path
    by_cases h : ((splitChar '/' path.data).length < 3 ∨
        (splitChar '/' path.data).head? ≠ some ("pages".data))
    · simp [parseArticlePath, h]
    · simp [parseArticlePath, h]
  · intro path cat fn hp
    unfold parseArticlePath at hp
    dsimp only at hp
    split at hp
    · exact absurd hp (by simp)
    · rw [Option.some_inj, Prod.ext_iff] at hp
      obtain ⟨h1, h2⟩ := hp
      exact ⟨congrArg String.data h1.symm, congrArg String.data h2.symm⟩

/-- Witness for claim C10 at a concrete input: the parse of
`pages/note/x.md` returns the second segment and the `.md`-stripped
third segment. -/
theorem claim_C10_witness :
    "note".data = (splitChar '/' "pages/note/x.md".data).getD 1 [] ∧
    "x".data = removeMd ((splitChar '/' "pages/note/x.md".data).getD 2 []) :=
  claim_C10_path_parsing.2.1 "pages/note/x.md" "note" "x" (by decide)

/-! ### Amended claims C2 and C4 -/

theorem assocGet_dictInsert_ne (m : List (String × String)) (p q c : String)
    (h : p ≠ q) : assocGet (dictInsert m p c) q = assocGet m q := by
  induction m with
  | nil => simp [dictInsert, assocGet, h]
  | cons kv rest ih =>
    obtain ⟨k, v⟩ := kv
    by_cases hk : k = p
    · subst hk; simp [dictInsert, assocGet, h]
    · simp [dictInsert, assocGet, hk, ih]

/-- Claim C4 amended: when a supplied new title finds a parseable index
in which the filename key is absent, the index write is silently skipped:
the trace holds the two reads and only the content write, the operation
still reports success naming the new title, and the index file content is
unchanged (whenever the article path is not itself the index path). -/
theorem claim_C4_amended (f : Faults) (st : GitState)
    (path new_content t old cat fn mc : String) (m : List (String × String))
    (hread : storeRead st path = some old)
    (hparse : parseArticlePath path = some (cat, fn))
    (hmc : storeRead st (metaPath cat) = some mc)
    (hload : metaLoads mc = some m)
    (habs : dictMem m fn = false) :
    (update_article f st path new_content (some t)).2.2 =
      [GitOp.readOp path (some old), GitOp.readOp (metaPath cat) (some mc),
       GitOp.writeOp path new_content (f.writeOk path)] ∧
    (f.writeOk path = true →
      (update_article f st path new_content (some t)).1 =
        "Successfully updated article at " ++ path ++
          " with new title \x27" ++ t ++ "\x27") ∧
    (path ≠ metaPath cat →
      storeRead (update_article f st path new_content (some t)).2.1 (metaPath cat) =
        some mc) := by
  refine ⟨?_, ?_, ?_⟩
  · cases hw : f.writeOk path <;>
      simp [update_article, hread, hparse, hmc, hload, habs, finishContentWrite,
        storeWrite, hw]
  · intro hw
    simp [update_article, hread, hparse, hmc, hload, habs, finishContentWrite,
      storeWrite, hw]
  · intro hne
    have hmc' : assocGet st.files (metaPath cat) = some mc := hmc
    have hread' : assocGet st.files path = some old := hread
    cases hw : f.writeOk path <;>
      simp [update_article, hread, hparse, hmc, hload, habs, finishContentWrite,
        storeWrite, hw, storeRead, assocGet_dictInsert_ne _ _ _ _ hne, hmc', hread']

/-- Witness for the amended claim C4 at a concrete input. -/
theorem claim_C4_amended_witness :
    (update_article allOkFaults keyAbsentState "pages/note/a.md" "new" (some "T")).2.2 =
      [GitOp.readOp "pages/note/a.md" (some "old"),
       GitOp.readOp "pages/note/_meta.json" (some (metaDumps [("b", "B")])),
       GitOp.writeOp "pages/note/a.md" "new" true] ∧
    storeRead (update_article allOkFaults keyAbsentState "pages/note/a.md" "new"
        (some "T")).2.1 "pages/note/_meta.json" = some (metaDumps [("b", "B")]) := by
  have h := claim_C4_amended allOkFaults keyAbsentState "pages/note/a.md" "new" "T"
    "old" "note" "a" (metaDumps [("b", "B")]) [("b", "B")] (by decide) (by decide)
    (by decide) (by decide) (by decide)
  exact ⟨h.1, h.2.2 (by decide)⟩

/-! ### Amended claim C8: what update actually validates about the path -/

theorem strNeAt (a b : String) (i : Nat) (x y : Char)
    (hx : a.data[i]? = some x) (hy : b.data[i]? = some y) (hxy : x ≠ y) :
    a ≠ b := by
  intro h
  rw [h] at hx
  rw [hx] at hy
  exact hxy (Option.some_inj.mp hy)

theorem data_getElem_append (a b : String) (i : Nat) (x : Char)
    (h : a.data[i]? = some x) : (a ++ b).data[i]? = some x := by
  have hlt : i < a.data.length := by
    by_contra hge
    rw [List.getElem?_eq_none (Nat.le_of_not_lt hge)] at h
    exact Option.noConfusion h
  rw [String.data_append, List.getElem?_append_left hlt]
  exact h

theorem finishContentWrite_ne_invalid (f : Faults) (st : GitState)
    (path new_content : String) (title : Option String) (tr : List GitOp) :
    (finishContentWrite f st path new_content title tr).1 ≠
      "Error: Invalid article path format. Expected \x27pages/category/filename.md\x27" := by
  unfold finishContentWrite
  cases hw : f.writeOk path <;> simp [storeWrite, hw]
  · exact strNeAt _ _ 15 'o' 'a'
      (data_getElem_append "Error: Failed to update article at " path 15 'o' (by decide))
      (by decide) (by decide)
  · cases title with
    | none =>
      exact strNeAt _ _ 15 'd' 'a'
        (data_getElem_append "Successfully updated article at " path 15 'd' (by decide))
        (by decide) (by decide)
    | some t =>
      exact strNeAt _ _ 15 'd' 'a'
        (data_getElem_append _ "\x27" 15 'd' (data_getElem_append _ t 15 'd'
          (data_getElem_append _ " with new title \x27" 15 'd'
            (data_getElem_append "Successfully updated article at " path 15 'd'
              (by decide)))))
        (by decide) (by decide)

/-- Claim C8 amended: the update operation validates only that the
slash-split of the path has at least three segments with first segment
`pages` (equivalently, that the shared parse succeeds); a path failing
that shape is rejected with the invalid-path error and no mutation, and
a path passing it — whatever its extension or number of extra segments —
is never answered with the invalid-path error. -/
theorem claim_C8_amended (f : Faults) (st : GitState)
    (path new_content old : String) (title : Option String)
    (hread : storeRead st path = some old) :
    (parseArticlePath path = none →
      update_article f st path new_content title =
        ("Error: Invalid article path format. Expected \x27pages/category/filename.md\x27",
         st, [GitOp.readOp path (some old)])) ∧
    (parseArticlePath path ≠ none →
      (update_article f st path new_content title).1 ≠
        "Error: Invalid article path format. Expected \x27pages/category/filename.md\x27") := by
  constructor
  · intro hparse
    simp [update_article, hread, hparse]
  · intro hp
    obtain ⟨⟨cat, fn⟩, hparse⟩ := Option.ne_none_iff_exists'.mp hp
    cases title with
    | none =>
      simpa [update_article, hread, hparse] using
        finishContentWrite_ne_invalid f st path new_content none
          [GitOp.readOp path (some old)]
    | some t =>
      rcases hmc : storeRead st (metaPath cat) with _ | mc
      · simp [update_article, hread, hparse, hmc]
        exact strNeAt _ _ 15 'o' 'a'
          (data_getElem_append _ "\x27" 15 'o' (data_getElem_append _ cat 15 'o'
            (by decide)))
          (by decide) (by decide)
      · rcases hload : metaLoads mc with _ | m
        · simp [update_article, hread, hparse, hmc, hload]
        · cases hmem : dictMem m fn with
          | false =>
            simpa [update_article, hread, hparse, hmc, hload, hmem] using
              finishContentWrite_ne_invalid f st path new_content (some t)
                [GitOp.readOp path (some old),
                 GitOp.readOp (metaPath cat) (some mc)]
          | true =>
            cases hw : f.writeOk (metaPath cat) with
            | false =>
              simp [update_article, hread, hparse, hmc, hload, hmem, storeWrite, hw]
            | true =>
              simpa [update_article, hread, hparse, hmc, hload, hmem, storeWrite, hw]
                using finishContentWrite_ne_invalid f
                  ⟨dictInsert st.files (metaPath cat)
                    (metaDumps (dictInsert m fn t))⟩ path new_content (some t)
                  [GitOp.readOp path (some old),
                   GitOp.readOp (metaPath cat) (some mc),
                   GitOp.writeOp (metaPath cat) (metaDumps (dictInsert m fn t)) true]

/-- Witness for the amended claim C8 at a concrete input: the
wrong-extension path, which passes the shape check, is not answered with
the invalid-path error. -/
theorem claim_C8_amended_witness :
    (update_article allOkFaults wrongExtState "pages/note/a.txt" "new" none).1 ≠
      "Error: Invalid article path format. Expected \x27pages/category/filename.md\x27" :=
  (claim_C8_amended allOkFaults wrongExtState "pages/note/a.txt" "new" "old"
    none (by decide)).2 (by decide)

/-! ### Amended claim C6: idempotence of the title normalization -/

theorem dropTrailingWhile_ne_nil (p : Char → Bool) (l : List Char)
    (h : l.any (fun c => !(p c)) = true) : dropTrailingWhile p l ≠ [] := by
  induction l with
  | nil => simp at h
  | cons c rest ih =>
    rw [List.any_cons] at h
    rcases hr : dropTrailingWhile p rest with _ | ⟨x, xs⟩
    · rcases Bool.or_eq_true_iff.mp h with hc | hrest
      · have hc' : p c = false := by simpa using hc
        simp [dropTrailingWhile, hr, hc']
      · exact absurd hr (ih hrest)
    · simp [dropTrailingWhile, hr]

theorem dropTrailingWhile_cons_of_any (p : Char → Bool) (c : Char)
    (rest : List Char) (h : (c :: rest).any (fun d => !(p d)) = true) :
    ∃ t, dropTrailingWhile p (c :: rest) = c :: t := by
  rcases hr : dropTrailingWhile p rest with _ | ⟨x, xs⟩
  · rw [List.any_cons] at h
    rcases Bool.or_eq_true_iff.mp h with hc | hrest
    · have hc' : p c = false := by simpa using hc
      exact ⟨[], by simp [dropTrailingWhile, hr, hc']⟩
    · exact absurd hr (dropTrailingWhile_ne_nil p rest hrest)
  · exact ⟨x :: xs, by simp [dropTrailingWhile, hr]⟩

/-- If the title or the content holds a non-whitespace character, the
result of prepending the heading is itself recognized as carrying a
markdown title. -/
theorem has_title_of_prepend (title content : String)
    (h : title.data.any (fun c => !(pyIsSpace c)) = true ∨
      content.data.any (fun c => !(pyIsSpace c)) = true) :
    has_markdown_title ("# " ++ title ++ "\n\n" ++ content) = true := by
  have hdata : ("# " ++ title ++ "\n\n" ++ content).data =
      '#' :: ' ' :: (title.data ++ '\n' :: '\n' :: content.data) := by
    simp [String.data_append]
  have hany : (' ' :: (title.data ++ '\n' :: '\n' :: content.data)).any
      (fun c => !(pyIsSpace c)) = true := by
    rw [List.any_eq_true]
    rcases h with h | h <;> rw [List.any_eq_true] at h <;> obtain ⟨x, hx, hpx⟩ := h
    · exact ⟨x, List.mem_cons_of_mem _ (List.mem_append_left _ hx), hpx⟩
    · exact ⟨x, List.mem_cons_of_mem _ (List.mem_append_right _
        (List.mem_cons_of_mem _ (List.mem_cons_of_mem _ hx))), hpx⟩
  obtain ⟨t2, ht2⟩ := dropTrailingWhile_cons_of_any pyIsSpace ' '
    (title.data ++ '\n' :: '\n' :: content.data) hany
  unfold has_markdown_title pyStrip
  rw [hdata]
  rw [List.dropWhile_cons]
  simp only [show pyIsSpace '#' = false from rfl, Bool.false_eq_true, if_false]
  rw [show dropTrailingWhile pyIsSpace
      ('#' :: ' ' :: (title.data ++ '\n' :: '\n' :: content.data)) =
      '#' :: ' ' :: t2 by rw [dropTrailingWhile, ht2]]
  simp [firstLine, listStartsWith]

/-- Claim C6 amended: the title normalization never mutates content that
already carries a heading, and it is idempotent for every title and
content except in the degenerate case where both the title and the
content consist entirely of whitespace. -/
theorem claim_C6_amended (title content : String)
    (h : title.data.any (fun c => !(pyIsSpace c)) = true ∨
      content.data.any (fun c => !(pyIsSpace c)) = true) :
    add_title_to_content title (add_title_to_content title content) =
      add_title_to_content title content ∧
    (has_markdown_title content = true →
      add_title_to_content title content = content) := by
  constructor
  · by_cases hc : has_markdown_title content
    · simp [add_title_to_content, hc]
    · have hmt := has_title_of_prepend title content h
      simp [add_title_to_content, hc, hmt]
  · intro hc
    simp [add_title_to_content, hc]

/-- Witness for the amended claim C6 at a concrete input. -/
theorem claim_C6_amended_witness :
    add_title_to_content "T" (add_title_to_content "T" "body") =
      add_title_to_content "T" "body" :=
  (claim_C6_amended "T" "body" (Or.inl (by decide))).1

/-! ### Amended claim C5: the shape of derived filenames

The slug shape is split into three Boolean predicates — no adjacent
hyphens, head not a hyphen, last not a hyphen — which the derivation
pipeline is shown to establish stage by stage; an acceptance lemma then
converts the three predicates into the anchored pattern automaton. -/

/-- No two adjacent hyphens. -/
def noTwoHyphens : List Char → Bool
  | [] => true
  | [_] => true
  | a :: b :: rest => !(a = '-' && b = '-') && noTwoHyphens (b :: rest)

/-- The head, if any, is not a hyphen. -/
def headNotHyphen : List Char → Bool
  | [] => true
  | c :: _ => !(c = '-')

/-- The last element, if any, is not a hyphen. -/
def lastNotHyphen : List Char → Bool
  | [] => true
  | [c] => !(c = '-')
  | _ :: b :: rest => lastNotHyphen (b :: rest)

/-- The head exists and satisfies `good`. -/
def headGood (good : Char → Bool) : List Char → Bool
  | [] => false
  | c :: _ => good c

theorem noTwoHyphens_tail (c : Char) (l : List Char)
    (h : noTwoHyphens (c :: l) = true) : noTwoHyphens l = true := by
  cases l with
  | nil => rfl
  | cons b rest => exact (Bool.and_eq_true_iff.mp h).2

theorem lastNotHyphen_tail (c : Char) (l : List Char)
    (h : lastNotHyphen (c :: l) = true) : lastNotHyphen l = true := by
  cases l with
  | nil => rfl
  | cons b rest => exact h

theorem all_cons_split {p : Char → Bool} {c : Char} {l : List Char}
    (h : (c :: l).all p = true) : p c = true ∧ l.all p = true := by
  rw [List.all_cons] at h
  exact Bool.and_eq_true_iff.mp h

/-- Acceptance of the anchored slug automaton from the three shape
predicates, proved simultaneously for both scanner states. -/
theorem slugMatchAux_of_shape (good : Char → Bool) (l : List Char) :
    (l.all (fun c => good c || c = '-') = true → noTwoHyphens l = true →
      lastNotHyphen l = true → slugMatchAux good true l = true) ∧
    (l.all (fun c => good c || c = '-') = true → noTwoHyphens l = true →
      lastNotHyphen l = true → headGood good l = true →
      slugMatchAux good false l = true) := by
  induction l with
  | nil =>
    refine ⟨fun _ _ _ => rfl, fun _ _ _ h4 => absurd h4 ?_⟩
    simp [headGood]
  | cons c rest ih =>
    have key : (c :: rest).all (fun c => good c || c = '-') = true →
        noTwoHyphens (c :: rest) = true → lastNotHyphen (c :: rest) = true →
        slugMatchAux good true (c :: rest) = true := by
      intro hall htwo hlast
      obtain ⟨hc, hrest⟩ := all_cons_split hall
      by_cases hg : good c = true
      · rw [show slugMatchAux good true (c :: rest) = slugMatchAux good true rest by
          simp [slugMatchAux, hg]]
        exact ih.1 hrest (noTwoHyphens_tail c rest htwo) (lastNotHyphen_tail c rest hlast)
      · have hh : c = '-' := by
          rcases Bool.or_eq_true_iff.mp hc with h | h
          · exact absurd h hg
          · simpa using h
        subst hh
        rw [show slugMatchAux good true ('-' :: rest) =
            slugMatchAux good false rest by simp [slugMatchAux, hg]]
        cases rest with
        | nil => exact absurd hlast (by simp [lastNotHyphen])
        | cons b r2 =>
          refine ih.2 hrest (noTwoHyphens_tail _ _ htwo)
            (lastNotHyphen_tail _ _ hlast) ?_
          have hb : ¬ (b = '-') := by
            intro hb
            have := (Bool.and_eq_true_iff.mp htwo).1
            simp [hb] at this
          obtain ⟨hcb, _⟩ := all_cons_split hrest
          rcases Bool.or_eq_true_iff.mp hcb with h | h
          · simpa [headGood] using h
          · exact absurd (by simpa using h) hb
    refine ⟨key, ?_⟩
    intro hall htwo hlast hhead
    have hg : good c = true := by simpa [headGood] using hhead
    rw [show slugMatchAux good false (c :: rest) = slugMatchAux good true rest by
      simp [slugMatchAux, hg]]
    obtain ⟨_, hrest⟩ := all_cons_split hall
    exact ih.1 hrest (noTwoHyphens_tail c rest htwo) (lastNotHyphen_tail c rest hlast)

theorem lookupPair_mem (ps : List (Char × Char)) (c l : Char)
    (h : lookupPair ps c = some l) : (c, l) ∈ ps := by
  induction ps with
  | nil => exact Option.noConfusion h
  | cons p rest ih =>
    obtain ⟨a, b⟩ := p
    by_cases hc : c = a
    · subst hc
      rw [lookupPair, if_pos rfl] at h
      injection h with h
      subst h
      exact List.mem_cons_self _ _
    · simp only [lookupPair, if_neg hc] at h
      exact List.mem_cons_of_mem _ (ih h)

/-- Lowercasing never produces a hyphen from a non-hyphen. -/
theorem pyLowerChar_hyphen (c : Char) (h : pyLowerChar c = '-') : c = '-' := by
  unfold pyLowerChar at h
  rcases hlu : lookupPair upperLowerPairs c with _ | l
  · rw [hlu] at h
    exact h
  · rw [hlu] at h
    subst h
    have hmem := lookupPair_mem _ _ _ hlu
    have hall : upperLowerPairs.all (fun p => !(p.2 = '-')) = true := by decide
    have := List.all_eq_true.mp hall _ hmem
    simp at this

/-- Lowercasing a word character yields a lowercase word character. -/
theorem wordChar_lower_good (c : Char) (h : isWordChar c = true) :
    isWordSlugChar (pyLowerChar c) = true := by
  have hmem : c ∈ wordChars := of_decide_eq_true h
  have hall : wordChars.all (fun d => isWordSlugChar (pyLowerChar d)) = true := by
    decide
  exact List.all_eq_true.mp hall _ hmem

theorem collapseHyphens_subset (l : List Char) :
    ∀ x, x ∈ collapseHyphens l → x ∈ l := by
  induction l with
  | nil => simp [collapseHyphens]
  | cons c rest ih =>
    cases rest with
    | nil => simp [collapseHyphens]
    | cons b r =>
      intro x hx
      unfold collapseHyphens at hx
      by_cases h : c = '-' ∧ b = '-'
      · rw [if_pos h] at hx
        exact List.mem_cons_of_mem _ (ih x hx)
      · rw [if_neg h] at hx
        rcases List.mem_cons.mp hx with rfl | hx
        · exact List.mem_cons_self _ _
        · exact List.mem_cons_of_mem _ (ih x hx)

theorem dropTrailingWhile_subset (p : Char → Bool) (l : List Char) :
    ∀ x, x ∈ dropTrailingWhile p l → x ∈ l := by
  induction l with
  | nil => simp [dropTrailingWhile]
  | cons c rest ih =>
    intro x hx
    rcases hr : dropTrailingWhile p rest with _ | ⟨y, ys⟩
    · rw [dropTrailingWhile, hr] at hx
      by_cases hp : p c = true
      · simp [hp] at hx
      · rw [if_neg hp] at hx
        rcases List.mem_singleton.mp hx with rfl
        exact List.mem_cons_self _ _
    · rw [dropTrailingWhile, hr] at hx
      rcases List.mem_cons.mp hx with rfl | hx
      · exact List.mem_cons_self _ _
      · exact List.mem_cons_of_mem _ (ih x (hr ▸ hx))

/-- The collapse step preserves the head element. -/
theorem collapseHyphens_cons (b : Char) (r : List Char) :
    ∃ t, collapseHyphens (b :: r) = b :: t := by
  induction r generalizing b with
  | nil => exact ⟨[], rfl⟩
  | cons c r2 ih =>
    by_cases h : b = '-' ∧ c = '-'
    · obtain ⟨t, ht⟩ := ih (b := c)
      refine ⟨t, ?_⟩
      rw [show collapseHyphens (b :: c :: r2) = collapseHyphens (c :: r2) by
        rw [collapseHyphens, if_pos h], ht, h.1, h.2]
    · exact ⟨collapseHyphens (c :: r2), by rw [collapseHyphens, if_neg h]⟩

theorem noTwoHyphens_collapse (l : List Char) :
    noTwoHyphens (collapseHyphens l) = true := by
  induction l with
  | nil => rfl
  | cons c rest ih =>
    cases rest with
    | nil => rfl
    | cons b r =>
      by_cases h : c = '-' ∧ b = '-'
      · rw [show collapseHyphens (c :: b :: r) = collapseHyphens (b :: r) by
          rw [collapseHyphens, if_pos h]]
        exact ih
      · obtain ⟨t, ht⟩ := collapseHyphens_cons b r
        rw [show collapseHyphens (c :: b :: r) = c :: collapseHyphens (b :: r) by
          rw [collapseHyphens, if_neg h], ht, noTwoHyphens]
        refine Bool.and_eq_true_iff.mpr ⟨?_, ?_⟩
        · by_cases hc : c = '-'
          · simp [hc, show ¬ (b = '-') from fun hb => h ⟨hc, hb⟩]
          · simp [hc]
        · rw [← ht]
          exact ih

theorem noTwoHyphens_dropWhile (p : Char → Bool) (l : List Char)
    (h : noTwoHyphens l = true) : noTwoHyphens (l.dropWhile p) = true := by
  induction l with
  | nil => simpa using h
  | cons c rest ih =>
    rw [List.dropWhile_cons]
    by_cases hp : p c = true
    · rw [if_pos hp]
      exact ih (noTwoHyphens_tail _ _ h)
    · rw [if_neg hp]
      exact h

theorem headNotHyphen_dropWhileHyphen (l : List Char) :
    headNotHyphen (l.dropWhile (fun c => c = '-')) = true := by
  induction l with
  | nil => rfl
  | cons c rest ih =>
    rw [List.dropWhile_cons]
    by_cases hc : c = '-'
    · simpa [hc] using ih
    · simp [hc, headNotHyphen]

/-- Dropping a trailing run either empties the list or preserves its
head. -/
theorem dropTrailingWhile_cons_shape (p : Char → Bool) (b : Char)
    (r : List Char) : dropTrailingWhile p (b :: r) = [] ∨
      ∃ t, dropTrailingWhile p (b :: r) = b :: t := by
  rcases hr : dropTrailingWhile p r with _ | ⟨x, xs⟩
  · by_cases hp : p b = true
    · left
      rw [dropTrailingWhile, hr, if_pos hp]
    · right
      exact ⟨[], by rw [dropTrailingWhile, hr, if_neg hp]⟩
  · right
    exact ⟨x :: xs, by rw [dropTrailingWhile, hr]⟩

theorem noTwoHyphens_dropTrailingWhile (p : Char → Bool) (l : List Char)
    (h : noTwoHyphens l = true) :
    noTwoHyphens (dropTrailingWhile p l) = true := by
  induction l with
  | nil => simpa using h
  | cons c rest ih =>
    rcases hr : dropTrailingWhile p rest with _ | ⟨x, xs⟩
    · by_cases hp : p c = true <;>
        simp [dropTrailingWhile, hr, hp, noTwoHyphens]
    · have hrec := ih (noTwoHyphens_tail _ _ h)
      rw [hr] at hrec
      rw [show dropTrailingWhile p (c :: rest) = c :: x :: xs by
        rw [dropTrailingWhile, hr], noTwoHyphens]
      refine Bool.and_eq_true_iff.mpr ⟨?_, hrec⟩
      cases rest with
      | nil => simp [dropTrailingWhile] at hr
      | cons y r2 =>
        rcases dropTrailingWhile_cons_shape p y r2 with hnil | ⟨t, ht⟩
        · rw [hnil] at hr
          exact List.noConfusion hr
        · rw [ht] at hr
          injection hr with h1 _
          subst h1
          have := (Bool.and_eq_true_iff.mp h).1
          exact this

theorem lastNotHyphen_dropTrailingHyphen (l : List Char) :
    lastNotHyphen (dropTrailingWhile (fun c => c = '-') l) = true := by
  induction l with
  | nil => rfl
  | cons c rest ih =>
    rcases hr : dropTrailingWhile (fun c => c = '-') rest with _ | ⟨x, xs⟩
    · by_cases hc : c = '-'
      · simp [dropTrailingWhile, hr, hc, lastNotHyphen]
      · simp [dropTrailingWhile, hr, hc, lastNotHyphen]
    · rw [show dropTrailingWhile (fun c => c = '-') (c :: rest) = c :: x :: xs by
        rw [dropTrailingWhile, hr], lastNotHyphen, ← hr]
      exact ih

theorem headNotHyphen_dropTrailingWhile (p : Char → Bool) (l : List Char)
    (h : headNotHyphen l = true) :
    headNotHyphen (dropTrailingWhile p l) = true := by
  cases l with
  | nil => simpa using h
  | cons c rest =>
    rcases dropTrailingWhile_cons_shape p c rest with hnil | ⟨t, ht⟩
    · rw [hnil]
      rfl
    · rw [ht]
      exact h

theorem noTwoHyphens_map_lower (l : List Char) (h : noTwoHyphens l = true) :
    noTwoHyphens (l.map pyLowerChar) = true := by
  induction l with
  | nil => rfl
  | cons a rest ih =>
    cases rest with
    | nil => rfl
    | cons b r =>
      rw [List.map_cons, List.map_cons, noTwoHyphens]
      refine Bool.and_eq_true_iff.mpr ⟨?_, ?_⟩
      · by_cases ha : pyLowerChar a = '-'
        · by_cases hb : pyLowerChar b = '-'
          · have ha' := pyLowerChar_hyphen a ha
            have hb' := pyLowerChar_hyphen b hb
            have hfst := (Bool.and_eq_true_iff.mp h).1
            rw [ha', hb'] at hfst
            simp at hfst
          · simp [hb]
        · simp [ha]
      · have ihr := ih (Bool.and_eq_true_iff.mp h).2
        rw [List.map_cons] at ihr
        exact ihr

theorem lastNotHyphen_map_lower (l : List Char) (h : lastNotHyphen l = true) :
    lastNotHyphen (l.map pyLowerChar) = true := by
  induction l with
  | nil => rfl
  | cons c rest ih =>
    cases rest with
    | nil =>
      rw [List.map_cons, List.map_nil, lastNotHyphen]
      by_cases hf : pyLowerChar c = '-'
      · have := pyLowerChar_hyphen c hf
        rw [lastNotHyphen, this] at h
        simp at h
      · simp [hf]
    | cons b r =>
      rw [List.map_cons, List.map_cons, lastNotHyphen]
      have ihr := ih h
      rw [List.map_cons] at ihr
      exact ihr

theorem headGood_map_lower (l : List Char)
    (hall : l.all (fun c => isWordChar c || c = '-') = true)
    (hh : headNotHyphen l = true) (hne : l ≠ []) :
    headGood isWordSlugChar (l.map pyLowerChar) = true := by
  cases l with
  | nil => exact absurd rfl hne
  | cons c rest =>
    rw [List.map_cons]
    show isWordSlugChar (pyLowerChar c) = true
    obtain ⟨hc, -⟩ := all_cons_split hall
    rcases Bool.or_eq_true_iff.mp hc with hw | hyph
    · exact wordChar_lower_good c hw
    · have hcy : c = '-' := by simpa using hyph
      rw [headNotHyphen, hcy] at hh
      simp at hh

/-- Every character surviving the strip stage is a word character or a
hyphen, because the replacement stage admits nothing else and the later
stages only drop characters. -/
theorem all_wordOrHyphen_strip (title : String) :
    (stripHyphens (collapseHyphens (title.data.map replaceNonWordChar))).all
      (fun c => isWordChar c || c = '-') = true := by
  rw [List.all_eq_true]
  intro x hx
  have hx1 : x ∈ title.data.map replaceNonWordChar := by
    have h2 := dropTrailingWhile_subset _ _ x hx
    have h3 := List.dropWhile_subset (l := collapseHyphens
      (title.data.map replaceNonWordChar)) (fun c => c = '-') h2
    exact collapseHyphens_subset _ x h3
  obtain ⟨y, _, rfl⟩ := List.mem_map.mp hx1
  unfold replaceNonWordChar
  by_cases h : isWordChar y || y = '-'
  · rw [if_pos h]
    exact h
  · rw [if_neg h]
    simp

/-- Claim C5 amended: for every title made of ASCII characters, the
derived filename is empty or matches the anchored pattern of nonempty
groups of lowercase word characters — letters, digits, or underscore —
separated by single hyphens (no leading, trailing, or repeated
hyphens). -/
theorem claim_C5_amended (title : String)
    (_hascii : title.data.all (fun c => c.toNat < 128) = true) :
    title_to_filename title = "" ∨
      slugMatches isWordSlugChar (title_to_filename title) = true := by
  have hall3 := all_wordOrHyphen_strip title
  have htwo3 : noTwoHyphens (stripHyphens (collapseHyphens
      (title.data.map replaceNonWordChar))) = true :=
    noTwoHyphens_dropTrailingWhile _ _
      (noTwoHyphens_dropWhile _ _ (noTwoHyphens_collapse _))
  have hlast3 : lastNotHyphen (stripHyphens (collapseHyphens
      (title.data.map replaceNonWordChar))) = true :=
    lastNotHyphen_dropTrailingHyphen _
  have hhead3 : headNotHyphen (stripHyphens (collapseHyphens
      (title.data.map replaceNonWordChar))) = true :=
    headNotHyphen_dropTrailingWhile _ _ (headNotHyphen_dropWhileHyphen _)
  have hall4 : ((stripHyphens (collapseHyphens
      (title.data.map replaceNonWordChar))).map pyLowerChar).all
      (fun c => isWordSlugChar c || c = '-') = true := by
    rw [List.all_eq_true]
    intro x hx
    obtain ⟨y, hy, rfl⟩ := List.mem_map.mp hx
    have hyw := List.all_eq_true.mp hall3 y hy
    rcases Bool.or_eq_true_iff.mp hyw with hw | hyph
    · rw [Bool.or_eq_true_iff]
      exact Or.inl (wordChar_lower_good y hw)
    · have : y = '-' := by simpa using hyph
      subst this
      rfl
  rw [show title_to_filename title = ⟨(stripHyphens (collapseHyphens
      (title.data.map replaceNonWordChar))).map pyLowerChar⟩ from rfl]
  rcases hl : (stripHyphens (collapseHyphens
      (title.data.map replaceNonWordChar))).map pyLowerChar with _ | ⟨c, t⟩
  · left
    rfl
  · right
    show slugMatchAux isWordSlugChar false (c :: t) = true
    rw [← hl]
    exact (slugMatchAux_of_shape isWordSlugChar _).2 hall4
      (noTwoHyphens_map_lower _ htwo3) (lastNotHyphen_map_lower _ hlast3)
      (headGood_map_lower _ hall3 hhead3 (by
        intro hnil
        rw [hnil] at hl
        exact List.noConfusion hl))

/-- Witness for the amended claim C5 at a concrete input. -/
theorem claim_C5_amended_witness :
    title_to_filename "A_b 9!" = "" ∨
      slugMatches isWordSlugChar (title_to_filename "A_b 9!") = true :=
  claim_C5_amended "A_b 9!" (by decide)

end BlogMcp
